import Mathlib

/-
Verification of the forward-kinematics node
(src/src/forward_kinematics/scripts/solution.py) against its specification.

Embedding conventions:
* numpy float64 arithmetic is modelled exactly over the rationals `ℚ`;
  the transcendental operations `math.sin`, `math.cos`, `math.sqrt`
  (whose float values the structural claims never depend on) are passed
  in as abstract parameters, bundled in `TrigOps`.
* `ℚ` division totalizes division by zero as 0 (floats would give inf/nan;
  no claim exercises that path).
* Python exceptions that escape a function are modelled by `Option`
  (`none` = an uncaught exception aborts the run) or by `RunResult.exn`.
* The ROS clock `rospy.Time.now()` is modelled as an explicit input `now`
  to the run; the published header stamp is this value.
* The unbounded `while True` extraction loop of `callback` is modelled
  with an explicit fuel argument; `none` at every fuel value renders
  non-termination.
-/

/-- Abstract trigonometric/sqrt operations standing for `math.sin`,
`math.cos`, `math.sqrt` on float64. -/
structure TrigOps where
  sin : ℚ → ℚ
  cos : ℚ → ℚ
  sqrt : ℚ → ℚ

/-- The constant `_EPS = numpy.finfo(float64).eps * 4.0` from tf/transformations.py. -/
def EPS : ℚ := 4 * (1 / 2 ^ 52)

/-- A quaternion in the (x, y, z, w) component order used by
tf/transformations.py. -/
structure Quat where
  x : ℚ
  y : ℚ
  z : ℚ
  w : ℚ
deriving DecidableEq

/-- A 4×4 homogeneous matrix (numpy array of shape (4,4)), entry `mIJ` at
row I, column J. -/
structure Mat4 where
  m00 : ℚ
  m01 : ℚ
  m02 : ℚ
  m03 : ℚ
  m10 : ℚ
  m11 : ℚ
  m12 : ℚ
  m13 : ℚ
  m20 : ℚ
  m21 : ℚ
  m22 : ℚ
  m23 : ℚ
  m30 : ℚ
  m31 : ℚ
  m32 : ℚ
  m33 : ℚ
deriving DecidableEq

/-- Matrix product `numpy.dot` on two 4×4 matrices. -/
def matmul (A B : Mat4) : Mat4 where
  m00 := A.m00 * B.m00 + A.m01 * B.m10 + A.m02 * B.m20 + A.m03 * B.m30
  m01 := A.m00 * B.m01 + A.m01 * B.m11 + A.m02 * B.m21 + A.m03 * B.m31
  m02 := A.m00 * B.m02 + A.m01 * B.m12 + A.m02 * B.m22 + A.m03 * B.m32
  m03 := A.m00 * B.m03 + A.m01 * B.m13 + A.m02 * B.m23 + A.m03 * B.m33
  m10 := A.m10 * B.m00 + A.m11 * B.m10 + A.m12 * B.m20 + A.m13 * B.m30
  m11 := A.m10 * B.m01 + A.m11 * B.m11 + A.m12 * B.m21 + A.m13 * B.m31
  m12 := A.m10 * B.m02 + A.m11 * B.m12 + A.m12 * B.m22 + A.m13 * B.m32
  m13 := A.m10 * B.m03 + A.m11 * B.m13 + A.m12 * B.m23 + A.m13 * B.m33
  m20 := A.m20 * B.m00 + A.m21 * B.m10 + A.m22 * B.m20 + A.m23 * B.m30
  m21 := A.m20 * B.m01 + A.m21 * B.m11 + A.m22 * B.m21 + A.m23 * B.m31
  m22 := A.m20 * B.m02 + A.m21 * B.m12 + A.m22 * B.m22 + A.m23 * B.m32
  m23 := A.m20 * B.m03 + A.m21 * B.m13 + A.m22 * B.m23 + A.m23 * B.m33
  m30 := A.m30 * B.m00 + A.m31 * B.m10 + A.m32 * B.m20 + A.m33 * B.m30
  m31 := A.m30 * B.m01 + A.m31 * B.m11 + A.m32 * B.m21 + A.m33 * B.m31
  m32 := A.m30 * B.m02 + A.m31 * B.m12 + A.m32 * B.m22 + A.m33 * B.m32
  m33 := A.m30 * B.m03 + A.m31 * B.m13 + A.m32 * B.m23 + A.m33 * B.m33

/-- The function `tf.transformations.identity_matrix()` = `numpy.identity(4)`. -/
def identity_matrix : Mat4 where
  m00 := 1
  m01 := 0
  m02 := 0
  m03 := 0
  m10 := 0
  m11 := 1
  m12 := 0
  m13 := 0
  m20 := 0
  m21 := 0
  m22 := 1
  m23 := 0
  m30 := 0
  m31 := 0
  m32 := 0
  m33 := 1

/-- The function `tf.transformations.translation_matrix(direction)`: the identity with
`M[:3, 3] = direction[:3]`. -/
def translation_matrix (v : ℚ × ℚ × ℚ) : Mat4 :=
  { identity_matrix with m03 := v.1, m13 := v.2.1, m23 := v.2.2 }

/-- The function `tf.transformations.translation_from_matrix(matrix)` = `matrix[:3, 3]`. -/
def translation_from_matrix (M : Mat4) : ℚ × ℚ × ℚ :=
  (M.m03, M.m13, M.m23)

/-- The function `tf.transformations.quaternion_about_axis(angle, axis)`:
`quaternion[:3] = axis`, `qlen = vector_norm(quaternion)` (norm of the
4-vector whose last component is still 0), scale the vector part by
`sin(angle/2)/qlen` when `qlen > _EPS`, then set `w = cos(angle/2)`. -/
def quaternion_about_axis (ops : TrigOps) (angle : ℚ) (axis : ℚ × ℚ × ℚ) : Quat :=
  let ax := axis.1
  let ay := axis.2.1
  let az := axis.2.2
  let qlen := ops.sqrt (ax * ax + ay * ay + az * az + 0 * 0)
  if EPS < qlen then
    { x := ax * (ops.sin (angle / 2) / qlen)
      y := ay * (ops.sin (angle / 2) / qlen)
      z := az * (ops.sin (angle / 2) / qlen)
      w := ops.cos (angle / 2) }
  else
    { x := ax, y := ay, z := az, w := ops.cos (angle / 2) }

/-- The function `tf.transformations.quaternion_matrix(quaternion)`: returns the
identity when `nq = q·q < _EPS`, otherwise scales `q` by `sqrt(2/nq)` and
assembles the homogeneous rotation matrix from the outer product. -/
def quaternion_matrix (sq : ℚ → ℚ) (q : Quat) : Mat4 :=
  let nq := q.x * q.x + q.y * q.y + q.z * q.z + q.w * q.w
  if nq < EPS then identity_matrix
  else
    let s := sq (2 / nq)
    let x := q.x * s
    let y := q.y * s
    let z := q.z * s
    let w := q.w * s
    { m00 := 1 - y * y - z * z
      m01 := x * y - z * w
      m02 := x * z + y * w
      m03 := 0
      m10 := x * y + z * w
      m11 := 1 - x * x - z * z
      m12 := y * z - x * w
      m13 := 0
      m20 := x * z - y * w
      m21 := y * z + x * w
      m22 := 1 - x * x - y * y
      m23 := 0
      m30 := 0
      m31 := 0
      m32 := 0
      m33 := 1 }

/-- The function `tf.transformations.quaternion_from_matrix(matrix)` (the version
shipped with ROS tf): trace test, the (i,j,k) index permutation resolved
into its three concrete outcomes, final scaling by `0.5/sqrt(t*M[3,3])`. -/
def quaternion_from_matrix (sq : ℚ → ℚ) (M : Mat4) : Quat :=
  let t := M.m00 + M.m11 + M.m22 + M.m33
  if M.m33 < t then
    let c := 1 / 2 / sq (t * M.m33)
    { x := (M.m21 - M.m12) * c
      y := (M.m02 - M.m20) * c
      z := (M.m10 - M.m01) * c
      w := t * c }
  else
    if M.m00 < M.m11 then
      if M.m11 < M.m22 then
        let t2 := M.m22 - (M.m00 + M.m11) + M.m33
        let c := 1 / 2 / sq (t2 * M.m33)
        { x := (M.m20 + M.m02) * c
          y := (M.m12 + M.m21) * c
          z := t2 * c
          w := (M.m10 - M.m01) * c }
      else
        let t2 := M.m11 - (M.m22 + M.m00) + M.m33
        let c := 1 / 2 / sq (t2 * M.m33)
        { x := (M.m01 + M.m10) * c
          y := t2 * c
          z := (M.m12 + M.m21) * c
          w := (M.m02 - M.m20) * c }
    else
      if M.m22 < M.m00 then
        let t2 := M.m00 - (M.m11 + M.m22) + M.m33
        let c := 1 / 2 / sq (t2 * M.m33)
        { x := t2 * c
          y := (M.m01 + M.m10) * c
          z := (M.m20 + M.m02) * c
          w := (M.m21 - M.m12) * c }
      else
        let t2 := M.m22 - (M.m00 + M.m11) + M.m33
        let c := 1 / 2 / sq (t2 * M.m33)
        { x := (M.m20 + M.m02) * c
          y := (M.m12 + M.m21) * c
          z := t2 * c
          w := (M.m10 - M.m01) * c }

/-- The call `tf.transformations.concatenate_matrices(T, D, R)`: folds `numpy.dot`
over the argument list starting from `numpy.identity(4)`. -/
def concatenate_matrices3 (T D R : Mat4) : Mat4 :=
  matmul (matmul (matmul identity_matrix T) D) R

/-- One `geometry_msgs.msg.TransformStamped` as filled in by
`convert_to_message`: header frame (parent), header stamp, child frame,
translation and rotation-quaternion components. -/
structure TransformStamped where
  frame_id : String
  stamp : ℚ
  child_frame_id : String
  tx : ℚ
  ty : ℚ
  tz : ℚ
  qx : ℚ
  qy : ℚ
  qz : ℚ
  qw : ℚ
deriving DecidableEq

/-- The function `convert_to_message(T, child, parent)` from solution.py; `now` is the
value returned by `rospy.Time.now()` for this message's header stamp. -/
def convert_to_message (sq : ℚ → ℚ) (T : Mat4) (child parent : String) (now : ℚ) :
    TransformStamped :=
  let translation := translation_from_matrix T
  let rotation := quaternion_from_matrix sq T
  { frame_id := parent
    stamp := now
    child_frame_id := child
    tx := translation.1
    ty := translation.2.1
    tz := translation.2.2
    qx := rotation.x
    qy := rotation.y
    qz := rotation.z
    qw := rotation.w }

/-- The `sensor_msgs.msg.JointState` fields used by the node: the parallel
`name` and `position` arrays. -/
structure JointState where
  name : List String
  position : List ℚ
deriving DecidableEq

/-- Python `list.index(x)` on a list of strings: the index of the first
occurrence, or `none` for the `ValueError` raised when absent. -/
def pyIndex (l : List String) (x : String) : Option Nat :=
  match l with
  | [] => none
  | y :: ys => if y = x then some 0 else (pyIndex ys x).map (· + 1)

/-- The joint-value lookup of `compute_transforms` (solution.py lines
158-164): `index = joint_values.name.index(joints[it].name)` followed by
`q = joint_values.position[index]`, with the `ValueError` of a missing
name caught and resolved to `q = 0.0`.  `none` models the uncaught
`IndexError` when `position` is shorter than the found index. -/
def find_q (jv : JointState) (jname : String) : Option ℚ :=
  match pyIndex jv.name jname with
  | some i => jv.position.get? i
  | none => some 0

/-- A URDF joint as used by solution.py: `joint.name`, `joint.type`
(a string, compared against the literal "revolute"), `joint.origin.xyz`,
`joint.origin.rpy` (documented but never read by the node), `joint.axis`. -/
structure Joint where
  name : String
  type : String
  origin_xyz : ℚ × ℚ × ℚ
  origin_rpy : ℚ × ℚ × ℚ
  axis : ℚ × ℚ × ℚ
deriving DecidableEq

/-- The rotation factor of one loop iteration of `compute_transforms`:
`quaternion_matrix(quaternion_about_axis(q, axis))` when
`joints[it].type == 'revolute'`, else `identity_matrix()`. -/
def rotation_for (ops : TrigOps) (j : Joint) (q : ℚ) : Mat4 :=
  if j.type = "revolute" then
    quaternion_matrix ops.sqrt (quaternion_about_axis ops q j.axis)
  else identity_matrix

/-- The loop of `compute_transforms` (solution.py lines 150-179), carrying
the accumulator `T`; consumes `joints` and `link_names` in lockstep, which
is `for it in range(len(joints))` with accesses `joints[it]`,
`link_names[it]`.  `none` models an uncaught exception (IndexError from a
too-short `link_names` or `position` array), which aborts the whole run
before anything is returned. -/
def computeAux (ops : TrigOps) (jv : JointState) (now : ℚ) :
    List Joint → List String → Mat4 → Option (List TransformStamped)
  | [], _, _ => some []
  | _ :: _, [], _ => none
  | j :: js, ln :: lns, T =>
    match find_q jv j.name with
    | none => none
    | some q =>
      let D := translation_matrix j.origin_xyz
      let R := rotation_for ops j q
      let T2 := concatenate_matrices3 T D R
      match computeAux ops jv now js lns T2 with
      | none => none
      | some rest => some (convert_to_message ops.sqrt T2 ln "world_link" now :: rest)

/-- The method `ForwardKinematics.compute_transforms(link_names, joints, joint_values)`
from solution.py: starts from `T = identity_matrix()` and runs the loop. -/
def compute_transforms (ops : TrigOps) (link_names : List String)
    (joints : List Joint) (jv : JointState) (now : ℚ) :
    Option (List TransformStamped) :=
  computeAux ops jv now joints link_names identity_matrix

/-- Spec-side total resolver: the value the loop assigns to `q` when the
lookup does not crash (first occurrence of the name, default 0.0). -/
def q_of (jv : JointState) (jname : String) : ℚ :=
  match pyIndex jv.name jname with
  | some i => jv.position.getD i 0
  | none => 0

/-- The accumulator after folding one chain entry:
`T = concatenate_matrices(T, D, R)` with the entry's `D` and `R`. -/
def stepT (ops : TrigOps) (jv : JointState) (T : Mat4) (j : Joint) : Mat4 :=
  concatenate_matrices3 T (translation_matrix j.origin_xyz)
    (rotation_for ops j (q_of jv j.name))

/-- Incremental accumulation of a list of chain entries onto `T`. -/
def accumFrom (ops : TrigOps) (jv : JointState) (T : Mat4) (l : List Joint) : Mat4 :=
  l.foldl (stepT ops jv) T

/-- The robot description as used by `callback`: root link name,
`robot.child_map` (link → list of (joint name, child link)) and
`robot.joint_map` (joint name → joint). -/
structure Robot where
  root : String
  child_map : List (String × List (String × String))
  joint_map : List (String × Joint)

/-- Outcome of a Python code path: a value, or an uncaught exception. -/
inductive RunResult (α : Type) where
  | val : α → RunResult α
  | exn : RunResult α
deriving DecidableEq

/-- The chain-extraction loop of `callback` (solution.py lines 64-83),
faithful to the source: on a fork (`len(child_map[link]) != 1`) or a
missing joint, the code calls `rospy.logerror`, an attribute that does not
exist in rospy (the API function is `rospy.logerr`), so those paths raise
`AttributeError` — modelled as `RunResult.exn`.  The loop itself is
unbounded (`while True` with no visited set), so it is indexed by fuel;
`none` means the loop was still running when the fuel ran out. -/
def extractLoop (r : Robot) :
    Nat → String → List Joint → List String →
    Option (RunResult (List Joint × List String))
  | 0, _, _, _ => none
  | fuel + 1, link_name, joints, link_names =>
    match r.child_map.lookup link_name with
    | none => some (.val (joints, link_names))
    | some edges =>
      match edges with
      | [(joint_name, next_link_name)] =>
        match r.joint_map.lookup joint_name with
        | none => some .exn
        | some j =>
          extractLoop r fuel next_link_name (joints ++ [j])
            (link_names ++ [next_link_name])
      | _ => some .exn

/-- Modelled from the spec: the extraction loop as the surrounding
comments and the specification intend it (`rospy.logerr`, a log call that
returns normally), so a fork or a missing joint truncates the chain
non-fatally and the accumulated prefix is returned. -/
def extractLoopIntended (r : Robot) :
    Nat → String → List Joint → List String →
    Option (RunResult (List Joint × List String))
  | 0, _, _, _ => none
  | fuel + 1, link_name, joints, link_names =>
    match r.child_map.lookup link_name with
    | none => some (.val (joints, link_names))
    | some edges =>
      match edges with
      | [(joint_name, next_link_name)] =>
        match r.joint_map.lookup joint_name with
        | none => some (.val (joints, link_names))
        | some j =>
          extractLoopIntended r fuel next_link_name (joints ++ [j])
            (link_names ++ [next_link_name])
      | _ => some (.val (joints, link_names))

/-- The method `ForwardKinematics.callback(joint_values)`, faithful: extract the
chain from the root, compute all transforms, publish.  The published batch
is the `.val` payload; `.exn` means the callback aborted with an uncaught
exception and published nothing; `none` means the extraction loop outran
the fuel. -/
def callback (ops : TrigOps) (r : Robot) (jv : JointState) (now : ℚ)
    (fuel : Nat) : Option (RunResult (List TransformStamped)) :=
  match extractLoop r fuel r.root [] [] with
  | none => none
  | some .exn => some .exn
  | some (.val (joints, link_names)) =>
    match compute_transforms ops link_names joints jv now with
    | none => some .exn
    | some msgs => some (.val msgs)

/-- Modelled from the spec: `callback` with the intended non-fatal
truncation (see `extractLoopIntended`). -/
def callbackIntended (ops : TrigOps) (r : Robot) (jv : JointState) (now : ℚ)
    (fuel : Nat) : Option (RunResult (List TransformStamped)) :=
  match extractLoopIntended r fuel r.root [] [] with
  | none => none
  | some .exn => some .exn
  | some (.val (joints, link_names)) =>
    match compute_transforms ops link_names joints jv now with
    | none => some .exn
    | some msgs => some (.val msgs)

/-- The successor link the extraction loop moves to when it neither stops
nor crashes at `link`: defined exactly when `link` has a single child edge
whose joint is present in the joint table. -/
def nextLink (r : Robot) (link : String) : Option String :=
  match r.child_map.lookup link with
  | none => none
  | some edges =>
    match edges with
    | [(joint_name, next_link_name)] =>
      match r.joint_map.lookup joint_name with
      | none => none
      | some _ => some next_link_name
    | _ => none

/-- The single-child traversal from `link` reaches, within `n` steps, a
link at which the extraction loop stops (leaf, fork, or missing joint). -/
def stopsWithin (r : Robot) : Nat → String → Bool
  | 0, link => (nextLink r link).isNone
  | n + 1, link =>
    match nextLink r link with
    | none => true
    | some l2 => stopsWithin r n l2

/-- Erase the header stamp of a message (for comparing batches up to the
clock reading). -/
def eraseStamp (m : TransformStamped) : TransformStamped :=
  { m with stamp := 0 }

/-- Overwrite the header stamp of a message. -/
def setStamp (t : ℚ) (m : TransformStamped) : TransformStamped :=
  { m with stamp := t }

/-- Identity instantiation of the abstract trig operations, used to
evaluate the model on concrete inputs. -/
def idTrig : TrigOps := ⟨id, id, id⟩

/-- A robot whose chain is `base → (j1) → l1` and where `l1` forks into
two child joints: the concrete fork input. -/
def forkRobot : Robot where
  root := "base"
  child_map :=
    [("base", [("j1", "l1")]), ("l1", [("j2", "l2"), ("j3", "l3")])]
  joint_map :=
    [("j1", ⟨"j1", "fixed", (2, 0, 0), (0, 0, 0), (0, 0, 0)⟩),
     ("j2", ⟨"j2", "fixed", (0, 0, 0), (0, 0, 0), (0, 0, 0)⟩),
     ("j3", ⟨"j3", "fixed", (0, 0, 0), (0, 0, 0), (0, 0, 0)⟩)]

/-- A robot whose link/child-edge graph is a self-loop at the root: link
"a" has the single child edge ("ja", "a"), and joint "ja" is present. -/
def cyclicRobot : Robot where
  root := "a"
  child_map := [("a", [("ja", "a")])]
  joint_map := [("ja", ⟨"ja", "fixed", (0, 0, 0), (0, 0, 0), (0, 0, 0)⟩)]

/-- A two-link acyclic robot: `a → (ja) → b`, `b` a leaf. -/
def lineRobot : Robot where
  root := "a"
  child_map := [("a", [("ja", "b")])]
  joint_map := [("ja", ⟨"ja", "fixed", (1, 0, 0), (0, 0, 0), (0, 0, 0)⟩)]



/-! ### Algebraic facts about 4×4 matrices -/

/-- Left identity for `matmul`. -/
lemma one_matmul (A : Mat4) : matmul identity_matrix A = A := by
  cases A
  simp [matmul, identity_matrix]

/-- Right identity for `matmul`. -/
lemma matmul_one (A : Mat4) : matmul A identity_matrix = A := by
  cases A
  simp [matmul, identity_matrix]

/-- Associativity of `matmul`. -/
lemma matmul_assoc (A B C : Mat4) :
    matmul (matmul A B) C = matmul A (matmul B C) := by
  cases A
  cases B
  cases C
  simp only [matmul, Mat4.mk.injEq]
  and_intros <;> ring

/-- The product `concatenate_matrices(T, D, R)` is just `(T·D)·R`: the leading
identity factor of the fold is absorbed. -/
lemma concat3_eq (T D R : Mat4) :
    concatenate_matrices3 T D R = matmul (matmul T D) R := by
  unfold concatenate_matrices3
  rw [one_matmul]

/-! ### Facts about the joint-value lookup -/

/-- Python `list.index` fails exactly on absent names. -/
lemma pyIndex_eq_none_iff (l : List String) (x : String) :
    pyIndex l x = none ↔ x ∉ l := by
  induction l with
  | nil => simp [pyIndex]
  | cons y ys ih =>
    by_cases h : y = x
    · subst h
      simp [pyIndex]
    · simp only [pyIndex, if_neg h, Option.map_eq_none', ih, List.mem_cons]
      constructor
      · intro hx hor
        rcases hor with he | hm
        · exact h he.symm
        · exact hx hm
      · intro hall hm
        exact hall (Or.inr hm)

/-- A found index is within the list. -/
lemma pyIndex_lt (l : List String) (x : String) (i : Nat)
    (h : pyIndex l x = some i) : i < l.length := by
  induction l generalizing i with
  | nil => simp [pyIndex] at h
  | cons y ys ih =>
    by_cases hyx : y = x
    · simp [pyIndex, hyx] at h
      simp only [List.length_cons]
      omega
    · simp [pyIndex, hyx] at h
      obtain ⟨i2, hi2, rfl⟩ := h
      have := ih i2 hi2
      simp only [List.length_cons]
      omega

/-- Python `list.index` returns the index of the first occurrence. -/
lemma pyIndex_first (l : List String) (x : String) (i : Nat)
    (h : pyIndex l x = some i) :
    l.get? i = some x ∧ ∀ k, k < i → l.get? k ≠ some x := by
  induction l generalizing i with
  | nil => simp [pyIndex] at h
  | cons y ys ih =>
    by_cases hyx : y = x
    · simp [pyIndex, hyx] at h
      subst hyx
      simp [← h]
    · simp [pyIndex, hyx] at h
      obtain ⟨i2, hi2, rfl⟩ := h
      obtain ⟨h1, h2⟩ := ih i2 hi2
      refine ⟨by simpa using h1, ?_⟩
      intro k hk
      cases k with
      | zero =>
        simp only [List.get?_cons_zero, Ne, Option.some.injEq]
        exact hyx
      | succ k2 =>
        simp only [List.get?_cons_succ]
        exact h2 k2 (by omega)

/-- Search is unaffected by elements appended after a hit. -/
lemma pyIndex_append_left (l l2 : List String) (x : String) (i : Nat)
    (h : pyIndex l x = some i) : pyIndex (l ++ l2) x = some i := by
  induction l generalizing i with
  | nil => simp [pyIndex] at h
  | cons y ys ih =>
    by_cases hyx : y = x
    · simp [pyIndex, hyx] at h ⊢
      exact h
    · simp [pyIndex, hyx] at h ⊢
      obtain ⟨i2, hi2, rfl⟩ := h
      exact ⟨i2, ih i2 hi2, rfl⟩

/-- Appending a previously absent name makes it found at the old length. -/
lemma pyIndex_append_self (l : List String) (x : String) (h : x ∉ l) :
    pyIndex (l ++ [x]) x = some l.length := by
  induction l with
  | nil => simp [pyIndex]
  | cons y ys ih =>
    simp only [List.mem_cons] at h
    push_neg at h
    obtain ⟨h1, h2⟩ := h
    have h1' : y ≠ x := fun he => h1 he.symm
    simp [pyIndex, h1', ih h2]

/-- An element is read back at its index (shared `get?`/`getD` bridge). -/
lemma get?_eq_getD {α : Type} (l : List α) (i : Nat) (d : α)
    (h : i < l.length) : l.get? i = some (l.getD i d) := by
  induction l generalizing i with
  | nil => simp at h
  | cons a as ih =>
    cases i with
    | zero => simp
    | succ i2 =>
      simp only [List.length_cons, Nat.succ_lt_succ_iff] at h
      simpa using ih i2 h

/-- Resolution of an absent joint name: `ValueError` is caught and the
default `0.0` is returned. -/
lemma find_q_of_not_mem (jv : JointState) (n : String) (h : n ∉ jv.name) :
    find_q jv n = some 0 := by
  unfold find_q
  rw [(pyIndex_eq_none_iff jv.name n).mpr h]

/-- With parallel arrays long enough, the lookup never crashes and yields
the total resolver `q_of`. -/
lemma find_q_eq_q_of (jv : JointState) (n : String)
    (hwf : jv.name.length ≤ jv.position.length) :
    find_q jv n = some (q_of jv n) := by
  unfold find_q q_of
  cases h : pyIndex jv.name n with
  | none => rfl
  | some i =>
    have hi : i < jv.position.length := lt_of_lt_of_le (pyIndex_lt _ _ _ h) hwf
    exact get?_eq_getD _ _ _ hi

/-! ### The composer loop in closed form -/

/-- Closed form of the `compute_transforms` loop: with link and position
arrays long enough, the run succeeds and the i-th appended message carries
the accumulator folded over the first i+1 chain entries. -/
lemma computeAux_eq (ops : TrigOps) (jv : JointState) (now : ℚ) :
    ∀ (joints : List Joint) (link_names : List String) (T : Mat4),
      joints.length ≤ link_names.length →
      jv.name.length ≤ jv.position.length →
      computeAux ops jv now joints link_names T =
        some ((List.range joints.length).map (fun i =>
          convert_to_message ops.sqrt (accumFrom ops jv T (joints.take (i + 1)))
            (link_names.getD i "") "world_link" now)) := by
  intro joints
  induction joints with
  | nil =>
    intro link_names T _ _
    simp [computeAux, List.range_zero]
  | cons j js ih =>
    intro link_names T hlen hwf
    cases link_names with
    | nil => exact absurd hlen (by simp)
    | cons ln lns =>
      have hlen' : js.length ≤ lns.length := by simpa using hlen
      have hq := find_q_eq_q_of jv j.name hwf
      have hstep : concatenate_matrices3 T (translation_matrix j.origin_xyz)
          (rotation_for ops j (q_of jv j.name)) = stepT ops jv T j := rfl
      simp only [computeAux, hq, hstep, ih lns (stepT ops jv T j) hlen' hwf]
      simp only [List.length_cons, List.range_succ_eq_map, List.map_cons, List.map_map]
      rfl

/-- Closed form of `compute_transforms` (accumulator started at the
identity, as in the source). -/
lemma compute_transforms_eq (ops : TrigOps) (link_names : List String)
    (joints : List Joint) (jv : JointState) (now : ℚ)
    (hlen : joints.length ≤ link_names.length)
    (hwf : jv.name.length ≤ jv.position.length) :
    compute_transforms ops link_names joints jv now =
      some ((List.range joints.length).map (fun i =>
        convert_to_message ops.sqrt
          (accumFrom ops jv identity_matrix (joints.take (i + 1)))
          (link_names.getD i "") "world_link" now)) :=
  computeAux_eq ops jv now joints link_names identity_matrix hlen hwf

/-- The loop reads the configuration only through `find_q`. -/
lemma computeAux_congr (ops : TrigOps) (now : ℚ) (jv1 jv2 : JointState)
    (h : ∀ m, find_q jv1 m = find_q jv2 m) :
    ∀ (joints : List Joint) (link_names : List String) (T : Mat4),
      computeAux ops jv1 now joints link_names T =
        computeAux ops jv2 now joints link_names T := by
  intro joints
  induction joints with
  | nil => intro link_names T; rfl
  | cons j js ih =>
    intro link_names T
    cases link_names with
    | nil => rfl
    | cons ln lns =>
      simp only [computeAux, h j.name]
      cases find_q jv2 j.name with
      | none => rfl
      | some q =>
        simp only [ih]

/-- The loop depends on the clock only through each message's stamp. -/
lemma computeAux_stamp (ops : TrigOps) (jv : JointState) (now now2 : ℚ) :
    ∀ (joints : List Joint) (link_names : List String) (T : Mat4),
      computeAux ops jv now joints link_names T =
        (computeAux ops jv now2 joints link_names T).map
          (List.map (setStamp now)) := by
  intro joints
  induction joints with
  | nil => intro link_names T; rfl
  | cons j js ih =>
    intro link_names T
    cases link_names with
    | nil => rfl
    | cons ln lns =>
      simp only [computeAux]
      cases find_q jv j.name with
      | none => rfl
      | some q =>
        simp only [ih]
        cases computeAux ops jv now2 js lns
            (concatenate_matrices3 T (translation_matrix j.origin_xyz)
              (rotation_for ops j q)) with
        | none => rfl
        | some rest =>
          simp only [Option.map_some', List.map_cons]
          rfl

/-- The loop never reads the `origin.rpy` field of any joint. -/
lemma computeAux_rpy (ops : TrigOps) (jv : JointState) (now : ℚ)
    (f : Joint → ℚ × ℚ × ℚ) :
    ∀ (joints : List Joint) (link_names : List String) (T : Mat4),
      computeAux ops jv now (joints.map (fun j =>
          { j with origin_rpy := f j })) link_names T =
        computeAux ops jv now joints link_names T := by
  intro joints
  induction joints with
  | nil => intro link_names T; rfl
  | cons j js ih =>
    intro link_names T
    cases link_names with
    | nil => rfl
    | cons ln lns =>
      simp only [List.map_cons, computeAux]
      cases find_q jv j.name with
      | none => rfl
      | some q =>
        simp only [ih]
        rfl

/-! ### Incremental accumulation versus recomputed products -/

/-- Folding `matmul` from an arbitrary start factors as a left
multiplication by that start. -/
lemma foldl_matmul_shift :
    ∀ (l : List Mat4) (A : Mat4),
      l.foldl matmul A = matmul A (l.foldl matmul identity_matrix) := by
  intro l
  induction l with
  | nil =>
    intro A
    simp [matmul_one]
  | cons B l2 ih =>
    intro A
    simp only [List.foldl_cons]
    rw [ih (matmul A B), ih (matmul identity_matrix B), one_matmul,
      matmul_assoc]

/-- The incremental accumulation of chain entries onto `T` equals `T`
times the from-scratch product of the per-entry local transforms. -/
lemma accumFrom_eq_prod (ops : TrigOps) (jv : JointState) :
    ∀ (l : List Joint) (T : Mat4),
      accumFrom ops jv T l =
        matmul T ((l.map (fun j =>
          matmul (translation_matrix j.origin_xyz)
            (rotation_for ops j (q_of jv j.name)))).foldl
          matmul identity_matrix) := by
  intro l
  induction l with
  | nil =>
    intro T
    simp [accumFrom, matmul_one]
  | cons j l2 ih =>
    intro T
    simp only [accumFrom, List.foldl_cons, List.map_cons]
    rw [show (stepT ops jv T j) = matmul (matmul T (translation_matrix j.origin_xyz))
        (rotation_for ops j (q_of jv j.name)) from concat3_eq _ _ _]
    rw [foldl_matmul_shift
        ((l2.map (fun j => matmul (translation_matrix j.origin_xyz)
          (rotation_for ops j (q_of jv j.name)))))
        (matmul identity_matrix (matmul (translation_matrix j.origin_xyz)
          (rotation_for ops j (q_of jv j.name))))]
    rw [one_matmul]
    have := ih (matmul (matmul T (translation_matrix j.origin_xyz))
      (rotation_for ops j (q_of jv j.name)))
    unfold accumFrom at this
    rw [this, matmul_assoc, matmul_assoc,
      matmul_assoc (translation_matrix j.origin_xyz)
        (rotation_for ops j (q_of jv j.name))]

/-! ### Degenerate rotation axes -/

/-- A zero-length rotation axis yields a pure-`w` quaternion: the vector
part stays zero in both branches of the length test. -/
lemma quaternion_about_axis_zero (ops : TrigOps) (angle : ℚ) :
    quaternion_about_axis ops angle (0, 0, 0) =
      { x := 0, y := 0, z := 0, w := ops.cos (angle / 2) } := by
  unfold quaternion_about_axis
  dsimp only
  split <;> simp

/-- The rotation matrix built for a degenerate (zero-length) axis is the
identity: both the small-norm branch and the scaled outer-product branch
of `quaternion_matrix` collapse to the identity when the vector part of
the quaternion is zero. -/
lemma quaternion_zero_axis (ops : TrigOps) (angle : ℚ) :
    quaternion_matrix ops.sqrt (quaternion_about_axis ops angle (0, 0, 0)) =
      identity_matrix := by
  rw [quaternion_about_axis_zero]
  unfold quaternion_matrix
  dsimp only
  split
  · rfl
  · simp [identity_matrix]

/-! ### Appending an explicit zero entry to the configuration -/

/-- With exactly parallel arrays, appending `(n, 0.0)` for a name `n` that
was absent changes no resolved value: existing names still hit their first
occurrence in the prefix, and `n` itself now resolves to the appended 0
instead of the caught-`ValueError` default 0. -/
lemma find_q_append_zero (jv : JointState) (n : String)
    (hn : n ∉ jv.name) (hwf : jv.name.length = jv.position.length) (m : String) :
    find_q ⟨jv.name ++ [n], jv.position ++ [0]⟩ m = find_q jv m := by
  cases h : pyIndex jv.name m with
  | some i =>
    have h2 := pyIndex_append_left jv.name [n] m i h
    have hi : i < jv.position.length := hwf ▸ pyIndex_lt jv.name m i h
    simp only [find_q, h, h2]
    exact List.get?_append hi
  | none =>
    have hm : m ∉ jv.name := (pyIndex_eq_none_iff jv.name m).mp h
    by_cases hmn : m = n
    · subst hmn
      have h2 := pyIndex_append_self jv.name m hm
      simp only [find_q, h, h2]
      rw [hwf]
      exact List.get?_concat_length _ _
    · have h2 : pyIndex (jv.name ++ [n]) m = none := by
        rw [pyIndex_eq_none_iff]
        simp only [List.mem_append, List.mem_singleton]
        rintro (hc | hc)
        · exact hm hc
        · exact hmn hc
      simp only [find_q, h, h2]

/-! ### The extraction loop -/

/-- When the loop neither continues from `link` (no unique well-formed
child edge), one unit of fuel suffices for it to return: either the
successful end of the chain or the `AttributeError` of the `logerror`
call. -/
lemma extract_stops (r : Robot) (link : String)
    (h : nextLink r link = none) (fuel : Nat) (js : List Joint)
    (ls : List String) :
    ∃ res, extractLoop r (fuel + 1) link js ls = some res := by
  unfold nextLink at h
  cases hc : r.child_map.lookup link with
  | none => exact ⟨.val (js, ls), by simp [extractLoop, hc]⟩
  | some edges =>
    rw [hc] at h
    match edges with
    | [] => exact ⟨.exn, by simp [extractLoop, hc]⟩
    | [(jn, nl)] =>
      dsimp only at h
      cases hj : r.joint_map.lookup jn with
      | none => exact ⟨.exn, by simp [extractLoop, hc, hj]⟩
      | some j =>
        rw [hj] at h
        simp at h
    | (e1 :: e2 :: rest) =>
      exact ⟨.exn, by simp [extractLoop, hc]⟩

/-- Shape of a continuing step: a unique child edge with a known joint. -/
lemma nextLink_eq_some (r : Robot) (link l2 : String)
    (h : nextLink r link = some l2) :
    ∃ jn j, r.child_map.lookup link = some [(jn, l2)] ∧
      r.joint_map.lookup jn = some j := by
  unfold nextLink at h
  cases hc : r.child_map.lookup link with
  | none => rw [hc] at h; exact absurd h (by simp)
  | some edges =>
    rw [hc] at h
    match edges with
    | [] => exact absurd h (by simp)
    | [(jn, nl)] =>
      dsimp only at h
      cases hj : r.joint_map.lookup jn with
      | none => rw [hj] at h; exact absurd h (by simp)
      | some j =>
        rw [hj] at h
        simp only [Option.some.injEq] at h
        exact ⟨jn, j, by rw [← h], hj⟩
    | (e1 :: e2 :: rest) => exact absurd h (by simp)

/-- On the self-loop description the extraction loop never returns: every
iteration finds the single well-formed edge back to link "a" and recurses,
so the result is fuel exhaustion at every fuel value. -/
lemma cyclic_extract_none :
    ∀ (n : Nat) (js : List Joint) (ls : List String),
      extractLoop cyclicRobot n "a" js ls = none := by
  intro n
  induction n with
  | zero => intro js ls; rfl
  | succ n2 ih =>
    intro js ls
    have step : extractLoop cyclicRobot (n2 + 1) "a" js ls =
        extractLoop cyclicRobot n2 "a"
          (js ++ [⟨"ja", "fixed", (0, 0, 0), (0, 0, 0), (0, 0, 0)⟩])
          (ls ++ ["a"]) := rfl
    rw [step]
    exact ih _ _

/-- One continuing step of the extraction loop: a unique well-formed
child edge appends the joint and child link and moves on. -/
lemma extract_step (r : Robot) (link l2 jn : String) (j : Joint)
    (fuel : Nat) (js : List Joint) (ls : List String)
    (hc : r.child_map.lookup link = some [(jn, l2)])
    (hj : r.joint_map.lookup jn = some j) :
    extractLoop r (fuel + 1) link js ls =
      extractLoop r fuel l2 (js ++ [j]) (ls ++ [l2]) := by
  simp only [extractLoop, hc, hj]

/-! ### Claims -/

/-- Claim C1: for every kinematic chain and joint configuration (with the
well-formedness the runtime guarantees: as many link names as joints, and
position array at least as long as the name array), the composer runs the
loop with an accumulator T initialized to the identity transform and, for
each entry i, updates T to T·D_i·R_i — D_i the pure translation built from
the joint's origin translation, R_i the identity for a non-revolute joint
and the quaternion-built rotation by the resolved value about the joint's
axis for a revolute one — and the message recorded for entry i carries
exactly the accumulator value after that update, for entry i's child
link. -/
theorem claim_C1 (ops : TrigOps) (link_names : List String)
    (joints : List Joint) (jv : JointState) (now : ℚ)
    (hlen : joints.length ≤ link_names.length)
    (hwf : jv.name.length ≤ jv.position.length) :
    ∃ msgs, compute_transforms ops link_names joints jv now = some msgs ∧
      msgs.length = joints.length ∧
      ∀ i, i < joints.length →
        msgs.get? i = some (convert_to_message ops.sqrt
          ((joints.take (i + 1)).foldl (fun T j =>
            concatenate_matrices3 T (translation_matrix j.origin_xyz)
              (rotation_for ops j (q_of jv j.name))) identity_matrix)
          (link_names.getD i "") "world_link" now) := by
  refine ⟨_, compute_transforms_eq ops link_names joints jv now hlen hwf,
    by simp, ?_⟩
  intro i hi
  rw [List.get?_map, List.get?_range hi]
  rfl

/-- Claim C1, witness: a single fixed joint with origin (1,0,0). -/
theorem claim_C1_witness :
    (([⟨"a", "fixed", (1, 0, 0), (0, 0, 0), (0, 0, 0)⟩] : List Joint).length ≤
        (["l1"] : List String).length ∧
      (["a"] : List String).length ≤ ([(1 : ℚ)] : List ℚ).length) ∧
    ∃ msgs, compute_transforms idTrig ["l1"]
        [⟨"a", "fixed", (1, 0, 0), (0, 0, 0), (0, 0, 0)⟩] ⟨["a"], [1]⟩ 0 =
        some msgs ∧
      msgs.length = 1 ∧
      ∀ i, i < 1 →
        msgs.get? i = some (convert_to_message idTrig.sqrt
          ((([⟨"a", "fixed", (1, 0, 0), (0, 0, 0), (0, 0, 0)⟩] : List Joint).take
              (i + 1)).foldl (fun T j =>
            concatenate_matrices3 T (translation_matrix j.origin_xyz)
              (rotation_for idTrig j (q_of ⟨["a"], [1]⟩ j.name)))
            identity_matrix)
          ((["l1"] : List String).getD i "") "world_link" 0) :=
  ⟨⟨by decide, by decide⟩,
    claim_C1 idTrig ["l1"] [⟨"a", "fixed", (1, 0, 0), (0, 0, 0), (0, 0, 0)⟩]
      ⟨["a"], [1]⟩ 0 (by decide) (by decide)⟩

/-- Claim C8: for every chain, configuration and chain index i, the
incrementally accumulated transform after entries 0..i (the loop's
`T = concatenate_matrices(T, D, R)` fold from the identity) equals the
product, recomputed from scratch, of the local transforms D_j·R_j for
j = 0..i starting from the identity.  Arithmetic is modelled exactly over
ℚ, so agreement is exact, which implies agreement within any floating
tolerance. -/
theorem claim_C8 (ops : TrigOps) (jv : JointState) (joints : List Joint)
    (i : ℕ) :
    (joints.take (i + 1)).foldl (fun T j =>
        concatenate_matrices3 T (translation_matrix j.origin_xyz)
          (rotation_for ops j (q_of jv j.name))) identity_matrix =
      ((joints.take (i + 1)).map (fun j =>
        matmul (translation_matrix j.origin_xyz)
          (rotation_for ops j (q_of jv j.name)))).foldl
        matmul identity_matrix := by
  have h := accumFrom_eq_prod ops jv (joints.take (i + 1)) identity_matrix
  unfold accumFrom at h
  rw [one_matmul] at h
  exact h

/-- Claim C10: every successful run publishes exactly one message per
chain entry, in chain order; each message's parent frame is the literal
string "world_link" and its child frame is the entry's child-link name. -/
theorem claim_C10 (ops : TrigOps) (link_names : List String)
    (joints : List Joint) (jv : JointState) (now : ℚ)
    (hlen : joints.length ≤ link_names.length)
    (hwf : jv.name.length ≤ jv.position.length) :
    ∃ msgs, compute_transforms ops link_names joints jv now = some msgs ∧
      msgs.length = joints.length ∧
      ∀ i, i < joints.length → ∃ m, msgs.get? i = some m ∧
        m.frame_id = "world_link" ∧
        m.child_frame_id = link_names.getD i "" := by
  refine ⟨_, compute_transforms_eq ops link_names joints jv now hlen hwf,
    by simp, ?_⟩
  intro i hi
  rw [List.get?_map, List.get?_range hi]
  exact ⟨_, rfl, rfl, rfl⟩

/-- Claim C10, witness: a two-entry chain. -/
theorem claim_C10_witness :
    (([⟨"a", "fixed", (1, 0, 0), (0, 0, 0), (0, 0, 0)⟩,
        ⟨"b", "fixed", (0, 1, 0), (0, 0, 0), (0, 0, 0)⟩] : List Joint).length ≤
        (["l1", "l2"] : List String).length ∧
      ([] : List String).length ≤ ([] : List ℚ).length) ∧
    ∃ msgs, compute_transforms idTrig ["l1", "l2"]
        [⟨"a", "fixed", (1, 0, 0), (0, 0, 0), (0, 0, 0)⟩,
          ⟨"b", "fixed", (0, 1, 0), (0, 0, 0), (0, 0, 0)⟩] ⟨[], []⟩ 0 =
        some msgs ∧
      msgs.length = 2 ∧
      ∀ i, i < 2 → ∃ m, msgs.get? i = some m ∧
        m.frame_id = "world_link" ∧
        m.child_frame_id = (["l1", "l2"] : List String).getD i "" :=
  ⟨⟨by decide, by decide⟩,
    claim_C10 idTrig ["l1", "l2"]
      [⟨"a", "fixed", (1, 0, 0), (0, 0, 0), (0, 0, 0)⟩,
        ⟨"b", "fixed", (0, 1, 0), (0, 0, 0), (0, 0, 0)⟩] ⟨[], []⟩ 0
      (by decide) (by decide)⟩

/-- Claim C3: a chain joint whose name is absent from the configuration
resolves to the default 0.0 without failing, and (for a well-formed
configuration with parallel arrays) extending the configuration with that
joint at value 0.0 produces exactly the same messages for every chain. -/
theorem claim_C3 (jv : JointState) (n : String) (hn : n ∉ jv.name)
    (hwf : jv.name.length = jv.position.length) :
    find_q jv n = some 0 ∧
    ∀ (ops : TrigOps) (link_names : List String) (joints : List Joint)
      (now : ℚ),
      compute_transforms ops link_names joints jv now =
        compute_transforms ops link_names joints
          ⟨jv.name ++ [n], jv.position ++ [0]⟩ now := by
  constructor
  · exact find_q_of_not_mem jv n hn
  · intro ops link_names joints now
    unfold compute_transforms
    exact computeAux_congr ops now jv ⟨jv.name ++ [n], jv.position ++ [0]⟩
      (fun m => (find_q_append_zero jv n hn hwf m).symm)
      joints link_names identity_matrix

/-- Claim C3, witness: name "a" absent from a one-entry configuration. -/
theorem claim_C3_witness :
    ("a" ∉ (["b"] : List String) ∧
      (["b"] : List String).length = ([(7 : ℚ)] : List ℚ).length) ∧
    (find_q ⟨["b"], [7]⟩ "a" = some 0 ∧
      ∀ (ops : TrigOps) (link_names : List String) (joints : List Joint)
        (now : ℚ),
        compute_transforms ops link_names joints ⟨["b"], [7]⟩ now =
          compute_transforms ops link_names joints
            ⟨["b"] ++ ["a"], [7] ++ [0]⟩ now) :=
  ⟨⟨by decide, by decide⟩, claim_C3 ⟨["b"], [7]⟩ "a" (by decide) (by decide)⟩

/-- Claim C4, counterexample: with the name "a" occurring twice in the
configuration (values 1 then 2), the loop resolves 1 — the value at the
FIRST occurrence (`list.index`), not the last occurrence's value 2. -/
theorem claim_C4_cex :
    find_q ⟨["a", "a"], [1, 2]⟩ "a" = some 1 ∧
    List.get? [(1 : ℚ), 2] 1 = some 2 ∧ (1 : ℚ) ≠ 2 :=
  ⟨by decide, by decide, by decide⟩

/-- Claim C4, amended: when a joint name recurs in the configuration's
name list, the resolved value is the one associated with the FIRST
occurrence of the name (Python `list.index` returns the first match). -/
theorem claim_C4 (jv : JointState) (n : String) (hmem : n ∈ jv.name) :
    ∃ i, jv.name.get? i = some n ∧
      (∀ k, k < i → jv.name.get? k ≠ some n) ∧
      find_q jv n = jv.position.get? i := by
  cases h : pyIndex jv.name n with
  | none =>
    exact absurd hmem ((pyIndex_eq_none_iff jv.name n).mp h)
  | some i =>
    obtain ⟨h1, h2⟩ := pyIndex_first jv.name n i h
    refine ⟨i, h1, h2, ?_⟩
    unfold find_q
    rw [h]

/-- Claim C4, witness: the duplicated-name configuration. -/
theorem claim_C4_witness :
    "a" ∈ (["a", "a"] : List String) ∧
    ∃ i, List.get? ["a", "a"] i = some "a" ∧
      (∀ k, k < i → List.get? ["a", "a"] k ≠ some "a") ∧
      find_q ⟨["a", "a"], [1, 2]⟩ "a" = List.get? [(1 : ℚ), 2] i :=
  ⟨by decide, claim_C4 ⟨["a", "a"], [1, 2]⟩ "a" (by decide)⟩

/-- Claim C5, counterexample: a revolute joint with the degenerate axis
(0,0,0) and value 5 does NOT fail and is NOT omitted: the run returns a
normal message for that joint's own entry, identical to the one a fixed
joint with the same origin would produce (the degenerate axis collapses to
the identity rotation). -/
theorem claim_C5_cex :
    compute_transforms idTrig ["l1"]
      [⟨"j", "revolute", (1, 0, 0), (0, 0, 0), (0, 0, 0)⟩]
      ⟨["j"], [5]⟩ 0 =
      some [convert_to_message id (translation_matrix (1, 0, 0)) "l1"
        "world_link" 0] := by
  have hrot : rotation_for idTrig
      ⟨"j", "revolute", (1, 0, 0), (0, 0, 0), (0, 0, 0)⟩ 5 =
      identity_matrix := by
    unfold rotation_for
    rw [if_pos rfl]
    exact quaternion_zero_axis idTrig 5
  have h1 : compute_transforms idTrig ["l1"]
      [⟨"j", "revolute", (1, 0, 0), (0, 0, 0), (0, 0, 0)⟩]
      ⟨["j"], [5]⟩ 0 =
      some [convert_to_message id
        (concatenate_matrices3 identity_matrix (translation_matrix (1, 0, 0))
          (rotation_for idTrig
            ⟨"j", "revolute", (1, 0, 0), (0, 0, 0), (0, 0, 0)⟩ 5))
        "l1" "world_link" 0] := rfl
  rw [h1, hrot, concat3_eq, matmul_one, one_matmul]

/-- Claim C5, amended: the composer does not fail on a degenerate
(zero-length) rotation axis — the quaternion construction maps the zero
axis to the identity rotation exactly (no non-finite values in the exact
model), and a run over any chain (degenerate axes included) still returns
one message for EVERY entry, the degenerate joint's own entry and its
downstream entries included. -/
theorem claim_C5 (ops : TrigOps) (angle : ℚ) :
    quaternion_matrix ops.sqrt (quaternion_about_axis ops angle (0, 0, 0)) =
      identity_matrix ∧
    ∀ (link_names : List String) (joints : List Joint) (jv : JointState)
      (now : ℚ),
      joints.length ≤ link_names.length →
      jv.name.length ≤ jv.position.length →
      ∃ msgs, compute_transforms ops link_names joints jv now = some msgs ∧
        msgs.length = joints.length := by
  refine ⟨quaternion_zero_axis ops angle, ?_⟩
  intro link_names joints jv now hlen hwf
  exact ⟨_, compute_transforms_eq ops link_names joints jv now hlen hwf,
    by simp⟩

/-- Claim C5, witness: the degenerate one-joint chain. -/
theorem claim_C5_witness :
    (([⟨"j", "revolute", (1, 0, 0), (0, 0, 0), (0, 0, 0)⟩] :
        List Joint).length ≤ (["l1"] : List String).length ∧
      (["j"] : List String).length ≤ ([(5 : ℚ)] : List ℚ).length) ∧
    quaternion_matrix idTrig.sqrt
        (quaternion_about_axis idTrig 5 (0, 0, 0)) = identity_matrix ∧
    ∃ msgs, compute_transforms idTrig ["l1"]
        [⟨"j", "revolute", (1, 0, 0), (0, 0, 0), (0, 0, 0)⟩]
        ⟨["j"], [5]⟩ 0 = some msgs ∧ msgs.length = 1 :=
  ⟨⟨by decide, by decide⟩, (claim_C5 idTrig 5).1,
    (claim_C5 idTrig 5).2 ["l1"]
      [⟨"j", "revolute", (1, 0, 0), (0, 0, 0), (0, 0, 0)⟩]
      ⟨["j"], [5]⟩ 0 (by decide) (by decide)⟩

/-- Claim C6, counterexample: two runs with IDENTICAL chain and identical
configuration but different clock readings publish different bytes — the
header stamp comes from `rospy.Time.now()`, hidden state outside the
(chain, configuration) pair. -/
theorem claim_C6_cex :
    compute_transforms idTrig ["l1"]
        [⟨"j1", "fixed", (0, 0, 0), (0, 0, 0), (0, 0, 0)⟩] ⟨[], []⟩ 0 ≠
      compute_transforms idTrig ["l1"]
        [⟨"j1", "fixed", (0, 0, 0), (0, 0, 0), (0, 0, 0)⟩] ⟨[], []⟩ 1 := by
  decide

/-- Claim C6, amended: the computation is a pure function of the chain,
the configuration, and the sampled clock reading; runs with identical
chain and configuration agree on every field except the header stamp
(erasing the stamps makes the batches of any two such runs identical, so
with equal clock readings the output is bit-identical). -/
theorem claim_C6 (ops : TrigOps) (link_names : List String)
    (joints : List Joint) (jv : JointState) (now now2 : ℚ) :
    (compute_transforms ops link_names joints jv now).map
        (List.map eraseStamp) =
      (compute_transforms ops link_names joints jv now2).map
        (List.map eraseStamp) := by
  unfold compute_transforms
  rw [computeAux_stamp ops jv now now2 joints link_names identity_matrix]
  cases h : computeAux ops jv now2 joints link_names identity_matrix with
  | none => rfl
  | some msgs =>
    simp only [Option.map_some', List.map_map]
    rfl

/-- Claim C9: any static orientation offset carried alongside a joint's
origin (`origin.rpy`) is never applied — replacing every joint's rpy by
anything whatsoever leaves every published message unchanged; only the
translation component of the origin enters the per-joint transform. -/
theorem claim_C9 (ops : TrigOps) (link_names : List String)
    (joints : List Joint) (jv : JointState) (now : ℚ)
    (f : Joint → ℚ × ℚ × ℚ) :
    compute_transforms ops link_names
        (joints.map (fun j => { j with origin_rpy := f j })) jv now =
      compute_transforms ops link_names joints jv now := by
  unfold compute_transforms
  exact computeAux_rpy ops jv now f joints link_names identity_matrix

/-- Claim C2: on the forked description (base → l1, then l1 forks), the
code as written aborts the callback with an uncaught exception — the
truncation branch calls `rospy.logerror`, which does not exist in rospy —
so NOTHING is published, while the intended code (`rospy.logerr`, as the
surrounding comments and the specification describe) publishes the pose of
every entry of the partial chain before the fork. -/
theorem claim_C2_bug :
    callback idTrig forkRobot ⟨[], []⟩ 0 10 = some .exn ∧
    callbackIntended idTrig forkRobot ⟨[], []⟩ 0 10 =
      some (.val [convert_to_message id (translation_matrix (2, 0, 0)) "l1"
        "world_link" 0]) := by
  constructor
  · decide
  · have hrot : rotation_for idTrig
        ⟨"j1", "fixed", (2, 0, 0), (0, 0, 0), (0, 0, 0)⟩ 0 =
        identity_matrix := rfl
    have h1 : callbackIntended idTrig forkRobot ⟨[], []⟩ 0 10 =
        some (.val [convert_to_message id
          (concatenate_matrices3 identity_matrix
            (translation_matrix (2, 0, 0)) identity_matrix)
          "l1" "world_link" 0]) := rfl
    rw [h1, concat3_eq, matmul_one, one_matmul]

/-- Claim C7, counterexample: on a description whose link graph has a
(reachable, single-child, well-formed) cycle, the extraction loop never
returns, at any fuel value — the run does not terminate. -/
theorem claim_C7_cex :
    ¬ ∃ (n : Nat) (res : RunResult (List Joint × List String)),
      extractLoop cyclicRobot n cyclicRobot.root [] [] = some res := by
  rintro ⟨n, res, h⟩
  rw [show cyclicRobot.root = "a" from rfl] at h
  rw [cyclic_extract_none n [] []] at h
  exact Option.noConfusion h

/-- Claim C7, amended: the extraction loop terminates whenever the
single-child traversal from the current link reaches, within n steps, a
link at which the loop stops (a leaf, a fork, or a missing joint) — in
particular for every acyclic description; a description with a reachable
cycle of well-formed single-child links (see the counterexample) makes the
loop run forever, since it keeps no visited set and the count of
unprocessed entries never reaches zero. -/
theorem claim_C7 (r : Robot) (n : Nat) :
    ∀ (link : String) (js : List Joint) (ls : List String),
      stopsWithin r n link = true →
      ∃ res, extractLoop r (n + 1) link js ls = some res := by
  induction n with
  | zero =>
    intro link js ls h
    have hnl : nextLink r link = none := by
      unfold stopsWithin at h
      simpa [Option.isNone_iff_eq_none] using h
    exact extract_stops r link hnl 0 js ls
  | succ n2 ih =>
    intro link js ls h
    cases hnl : nextLink r link with
    | none => exact extract_stops r link hnl (n2 + 1) js ls
    | some l2 =>
      have h2 : stopsWithin r n2 l2 = true := by
        unfold stopsWithin at h
        rw [hnl] at h
        exact h
      obtain ⟨jn, j, hc, hj⟩ := nextLink_eq_some r link l2 hnl
      rw [extract_step r link l2 jn j (n2 + 1) js ls hc hj]
      exact ih l2 (js ++ [j]) (ls ++ [l2]) h2

/-- Claim C7, witness: a two-link acyclic robot stops within one step and
extraction returns with fuel 2. -/
theorem claim_C7_witness :
    stopsWithin lineRobot 1 "a" = true ∧
    ∃ res, extractLoop lineRobot 2 "a" [] [] = some res :=
  ⟨by decide, claim_C7 lineRobot 1 "a" [] [] (by decide)⟩
